import Mathlib

/-!
Verification development for the AHalic/Blockchain repository.

The repository holds two parallel single-file implementations of the same
educational ledger:

* `bitcoin.py`   — blocks carry `index, timestamp, nbits, nonce,
  previous_hash, transactions, transactions_hash`; mining searches a nonce
  whose block hash, read as a hex integer, is below the compact target
  decoded from `nbits`.
* `blockchain.py` — blocks carry `index, timestamp, proof, previous_hash`;
  mining searches a `proof` whose digest of
  `str(new_proof ** 2 - previous_proof ** 2)` starts with seven zeros.

Modelling conventions, used uniformly below:

* `sha : String → String` stands for `hashlib.sha256(arg.encode()).hexdigest()`.
  It is an uninterpreted parameter; theorems that need concrete evaluation
  instantiate it with explicit functions defined near the end of the
  definition section.
* `datetime.datetime.now()` is nondeterministic, so each operation that
  stamps a block takes the timestamp as an explicit `String` argument.
* Mutation of the Python object is modelled by explicit state passing: an
  operation takes the pre-state and returns the post-state.
* The unbounded `while` loops of the two `proof_of_work` methods are
  modelled with an explicit fuel argument; `some` results correspond
  exactly to runs of the Python loop that terminate.
* In `bitcoin.py` the dict stored under the key `transactions` is the very
  list object `self.current_transactions` (no copy is taken), the single
  list allocated in `__init__` and never rebound.  This aliasing is
  modelled by the one-constructor type `ListRef`: a block stores the
  reference, and reading the field goes through the current state.
* A Python `KeyError` / `IndexError` is modelled by `Option`: `none` means
  the call raises instead of returning.
-/

/-- Python `str` of a natural number (decimal digits).  The inner loop is
structural on a fuel argument that is always sufficient. -/
def natDecAux : Nat → Nat → List Char → List Char
  | 0, _, acc => acc
  | fuel + 1, n, acc =>
    if n < 10 then Char.ofNat (48 + n) :: acc
    else natDecAux fuel (n / 10) (Char.ofNat (48 + n % 10) :: acc)

/-- Python `str(n)` for a non-negative integer. -/
def pyStrNat (n : Nat) : String := ⟨natDecAux (n + 1) n []⟩

/-- Python `str(i)` for an arbitrary integer (minus sign then digits). -/
def pyStrInt : Int → String
  | Int.ofNat n => pyStrNat n
  | Int.negSucc n => ⟨Char.ofNat 45 :: (pyStrNat (n + 1)).data⟩

/-- Python slice `s[:n]` on a string (by code points). -/
def strTake (s : String) (n : Nat) : String := ⟨s.data.take n⟩

/-- Value of one lowercase-or-uppercase hex digit, as `int(_, 16)` reads it
on the hex digests produced by `hexdigest()`. -/
def hexVal (c : Char) : Nat :=
  if 97 ≤ c.toNat then c.toNat - 87
  else if 65 ≤ c.toNat then c.toNat - 55
  else c.toNat - 48

/-- Python `int(s, 16)` on a hex-digit string such as a sha256 hexdigest. -/
def hexToNat (s : String) : Nat := s.data.foldl (fun a c => a * 16 + hexVal c) 0

/-- Python `repr` of a string as it appears inside `str(list)`:
the string between single quotes (the transaction strings of this
program contain no quotes to escape). -/
def pyQuote (s : String) : String := "\x27" ++ s ++ "\x27"

/-- Helper for `pyStrList`: comma-separated reprs. -/
def pyStrListAux : List String → String
  | [] => ""
  | [s] => pyQuote s
  | s :: rest => pyQuote s ++ ", " ++ pyStrListAux rest

/-- Python `str(l)` for a list of strings, a bracketed, comma-separated sequence of single-quoted items. -/
def pyStrList (l : List String) : String := "[" ++ pyStrListAux l ++ "]"

/-- Adjacent-pair conjunction over a list: `allPairs p l` is true when every
two consecutive elements of `l` satisfy `p`.  Used to state linkage and
validity of chains. -/
def allPairs {α : Type} (p : α → α → Bool) : List α → Bool
  | a :: b :: rest => p a b && allPairs p (b :: rest)
  | _ => true

namespace Bitcoin

/-- Reference to the single mutable list object
`self.current_transactions` of `bitcoin.py` (allocated once in `__init__`,
mutated in place by `new_transaction`, never rebound and never copied). -/
inductive ListRef where
  | pool
deriving DecidableEq

/-- The block dict built by `Blockchain.create_block` in `bitcoin.py`
(lines 42-50).  These seven keys are the only keys a block ever has. -/
structure Block where
  index : Nat
  timestamp : String
  nbits : Nat
  nonce : Nat
  previous_hash : String
  transactions : ListRef
  transactions_hash : String
deriving DecidableEq

/-- The mutable state of the `Blockchain` object of `bitcoin.py`:
the chain list and the contents of the `current_transactions` list. -/
structure Blockchain where
  chain : List Block
  current_transactions : List String
deriving DecidableEq

/-- Reading the `transactions` entry of a block dict dereferences the stored list object:
its contents are whatever `current_transactions` holds in the current
state. -/
def Block.getTransactions (st : Blockchain) (b : Block) : List String :=
  match b.transactions with
  | ListRef.pool => st.current_transactions

/-- Reading the `proof` entry of a `bitcoin.py` block dict: `create_block` never
stores a key named `proof`, so the subscript raises `KeyError`, modelled
as `none`. -/
def Block.getProof (_ : Block) : Option Nat := none

/-- Model of `Blockchain.create_block` of `bitcoin.py` (lines 33-53).  It only
builds and returns the dict; the append to the chain is commented out in
the source.  `transactions` stores the live pool reference, and
`transactions_hash` is sha256 of `str(self.current_transactions)`. -/
def create_block (sha : String → String) (st : Blockchain) (ts : String)
    (nonce : Nat) (previous_hash : String) : Block :=
  { index := st.chain.length + 1
    timestamp := ts
    nbits := 486604799
    nonce := nonce
    previous_hash := previous_hash
    transactions := ListRef.pool
    transactions_hash := sha (pyStrList st.current_transactions) }

/-- Model of the constructor of `bitcoin.py` (lines 20-30): empty chain and
pool, then append the result of create_block with nonce 1 and previous_hash "0". -/
def init (sha : String → String) (ts : String) : Blockchain :=
  let st0 : Blockchain := { chain := [], current_transactions := [] }
  { chain := [create_block sha st0 ts 1 ("0")], current_transactions := [] }

/-- Model of `Blockchain.get_previous_block` (lines 55-62): `self.chain[-1]`,
raising `IndexError` on an empty chain. -/
def get_previous_block (st : Blockchain) : Option Block := st.chain.getLast?

/-- Model of `Blockchain.calculate_target` (lines 64-73).  The source formats
`mant * (1 << (8*(exp-3)))` with the format %064x and parses it back with
`int(_, 16)`, which is the identity for the values reachable here
(`nbits = 486604799` gives a 224-bit target). -/
def calculate_target (bits : Nat) : Nat :=
  let exp := bits >>> 24
  let mant := bits &&& 0xffffff
  mant * (1 <<< (8 * (exp - 3)))

/-- Model of `Blockchain.hash` of `bitcoin.py` (lines 117-126): sha256 of the
f-string concatenation of timestamp, previous_hash, transactions_hash and
nonce. -/
def hash (sha : String → String) (b : Block) : String :=
  sha (b.timestamp ++ b.previous_hash ++ b.transactions_hash ++ pyStrNat b.nonce)

/-- The `while` loop of `Blockchain.proof_of_work` (lines 95-109): test
`int(self.hash(block), 16) < target`; on failure increment the `nonce` entry of the template and retry.  Fuel models termination of the unbounded loop. -/
def powLoop (sha : String → String) (target : Nat) : Block → Nat → Option Block
  | _, 0 => none
  | b, fuel + 1 =>
    if hexToNat (hash sha b) < target then some b
    else powLoop sha target { b with nonce := b.nonce + 1 } fuel

/-- Model of `Blockchain.proof_of_work` of `bitcoin.py` (lines 75-115): build a
template with `create_block(1, self.hash(self.get_previous_block()))`,
decode the target from the `nbits` field of the template, run the search loop, then
`self.chain.append(block)` and return the block.  The returned state is
the post-call state of the object. -/
def proof_of_work (sha : String → String) (st : Blockchain) (ts : String)
    (fuel : Nat) : Option (Block × Blockchain) :=
  match get_previous_block st with
  | none => none
  | some prev =>
    let block := create_block sha st ts 1 (hash sha prev)
    let target := calculate_target block.nbits
    match powLoop sha target block fuel with
    | none => none
    | some b => some (b, { st with chain := st.chain ++ [b] })

/-- The `/new_transaction` handler of `bitcoin.py` (lines 197-199):
`blockchain.current_transactions.append(tr_str)`, an in-place append to
the shared pool list. -/
def new_transaction (st : Blockchain) (tr : String) : Blockchain :=
  { st with current_transactions := st.current_transactions ++ [tr] }

/-- The loop body of `Blockchain.is_chain_valid` of `bitcoin.py`
(lines 141-162), run with `previous_block` and the remaining blocks.
First the link check (`return False` on mismatch), then the reads
the `proof` entries of previous_block and block, which raise `KeyError`
(`none`) on every block this class creates; the digest comparison that
follows in the source is therefore dead code but is kept verbatim. -/
def validFrom (sha : String → String) (previous_block : Block) :
    List Block → Option Bool
  | [] => some true
  | block :: rest =>
    if block.previous_hash ≠ hash sha previous_block then some false
    else
      match previous_block.getProof, block.getProof with
      | some previous_proof, some current_proof =>
        let hash_operation :=
          sha (pyStrInt ((current_proof : Int) ^ 2 - (previous_proof : Int) ^ 2))
        if strTake hash_operation 7 ≠ ("0000000") then some false
        else validFrom sha block rest
      | _, _ => none

/-- Model of `Blockchain.is_chain_valid` of `bitcoin.py` (lines 128-165):
`previous_block = chain[0]`, then the forward loop from index 1. -/
def is_chain_valid (sha : String → String) (chain : List Block) : Option Bool :=
  match chain with
  | [] => none
  | first :: rest => validFrom sha first rest

/-- Linkage property of a `bitcoin.py` chain: every block after the first
has `previous_hash` equal to the hash, under the hash function of the ledger
itself, of its predecessor. -/
def linked (sha : String → String) (l : List Block) : Bool :=
  allPairs (fun a b => b.previous_hash == hash sha a) l

/-- States of the `bitcoin.py` ledger reachable from a fresh object by the
operations the program exposes: construction, transaction submission, and
successful mining. -/
inductive Reached (sha : String → String) : Blockchain → Prop where
  | start (ts : String) : Reached sha (init sha ts)
  | submit {st : Blockchain} (tr : String) :
      Reached sha st → Reached sha (new_transaction st tr)
  | mine {st : Blockchain} (ts : String) (fuel : Nat) {b : Block}
      {st2 : Blockchain} :
      Reached sha st → proof_of_work sha st ts fuel = some (b, st2) →
      Reached sha st2

end Bitcoin

namespace BlockchainPy

/-- The block dict built by `Blockchain.create_blockchain` in
`blockchain.py` (lines 37-42). -/
structure Block where
  index : Nat
  timestamp : String
  proof : Nat
  previous_hash : String
deriving DecidableEq

/-- The mutable state of the `Blockchain` object of `blockchain.py`:
only the chain list. -/
structure Blockchain where
  chain : List Block
deriving DecidableEq

/-- Model of `json.dumps(block, sort_keys=True)` for a `blockchain.py` block: keys
in alphabetical order, default separators, JSON string quoting (the
timestamps and hex digests of this program need no escaping). -/
def dumps (b : Block) : String :=
  "\x7b\"index\": " ++ pyStrNat b.index ++
  ", \"previous_hash\": \"" ++ b.previous_hash ++
  "\", \"proof\": " ++ pyStrNat b.proof ++
  ", \"timestamp\": \"" ++ b.timestamp ++ "\"\x7d"

/-- Model of `Blockchain.hash` of `blockchain.py` (lines 94-102): sha256 of the
sorted-keys JSON serialization of the whole block dict. -/
def hash (sha : String → String) (b : Block) : String := sha (dumps b)

/-- Model of `Blockchain.create_blockchain` (lines 28-45): build the dict, append
it to the chain, return it. -/
def create_blockchain (st : Blockchain) (ts : String) (proof : Nat)
    (previous_hash : String) : Block × Blockchain :=
  let block : Block :=
    { index := st.chain.length + 1
      timestamp := ts
      proof := proof
      previous_hash := previous_hash }
  (block, { chain := st.chain ++ [block] })

/-- Model of the constructor of `blockchain.py` (lines 17-25): empty chain,
then create_blockchain with proof 1 and previous_hash "0". -/
def init (ts : String) : Blockchain :=
  (create_blockchain { chain := [] } ts 1 ("0")).2

/-- Model of `Blockchain.get_previous_block` (lines 47-54): `self.chain[-1]`. -/
def get_previous_block (st : Blockchain) : Option Block := st.chain.getLast?

/-- The digest test shared by `proof_of_work` (lines 80-84) and
`is_chain_valid` (lines 131-134) of `blockchain.py`:
`sha256(str(current ** 2 - previous ** 2)).hexdigest()[:7] == "0000000"` (written with single quotes in the source).
The subtraction is on Python ints, hence on `Int`. -/
def proofCheck (sha : String → String) (previous_proof current_proof : Nat) :
    Bool :=
  strTake (sha (pyStrInt
    ((current_proof : Int) ^ 2 - (previous_proof : Int) ^ 2))) 7 == ("0000000")

/-- The `while` loop of `Blockchain.proof_of_work` (lines 74-88): test the
digest of the current candidate, increment on failure.  Fuel models
termination of the unbounded loop. -/
def powLoop (sha : String → String) (previous_proof : Nat) :
    Nat → Nat → Option Nat
  | _, 0 => none
  | new_proof, fuel + 1 =>
    if proofCheck sha previous_proof new_proof then some new_proof
    else powLoop sha previous_proof (new_proof + 1) fuel

/-- Model of `Blockchain.proof_of_work` of `blockchain.py` (lines 56-92): search
starts at `new_proof = 1` and returns the found proof value only; the
chain is not touched. -/
def proof_of_work (sha : String → String) (previous_proof : Nat)
    (fuel : Nat) : Option Nat :=
  powLoop sha previous_proof 1 fuel

/-- The `/mine_block` handler of `blockchain.py` (lines 154-168): read the
tail, run `proof_of_work` on its proof, hash the tail, and append a new
block via `create_blockchain`. -/
def mine_block (sha : String → String) (st : Blockchain) (ts : String)
    (fuel : Nat) : Option (Block × Blockchain) :=
  match get_previous_block st with
  | none => none
  | some previous_block =>
    match proof_of_work sha previous_block.proof fuel with
    | none => none
    | some proof =>
      let previous_hash := hash sha previous_block
      some (create_blockchain st ts proof previous_hash)

/-- The loop body of `Blockchain.is_chain_valid` of `blockchain.py`
(lines 118-139): link check against the recomputed hash of the previous
block (`return False` on mismatch), then the proof-pair digest check
(`return False` unless the digest starts with seven zeros), then advance. -/
def validFrom (sha : String → String) (previous_block : Block) :
    List Block → Bool
  | [] => true
  | block :: rest =>
    if block.previous_hash ≠ hash sha previous_block then false
    else if proofCheck sha previous_block.proof block.proof then
      validFrom sha block rest
    else false

/-- Model of `Blockchain.is_chain_valid` of `blockchain.py` (lines 105-142):
`previous_block = chain[0]`, then the forward loop from index 1. -/
def is_chain_valid (sha : String → String) (chain : List Block) :
    Option Bool :=
  match chain with
  | [] => none
  | first :: rest => some (validFrom sha first rest)

/-- One step of the validator as the code performs it: link check and
proof-pair digest check for an adjacent pair of blocks. -/
def validPair (sha : String → String) (previous_block block : Block) : Bool :=
  (block.previous_hash == hash sha previous_block) &&
    proofCheck sha previous_block.proof block.proof

/-- Modelled from the spec: the per-step check the claim about the
validator describes — recompute the hash of the previous block and compare
it to `previous_hash`, then recompute the hash of the current block and
test it against the fixed-prefix target of seven zeros. -/
def claimPair (sha : String → String) (previous_block block : Block) : Bool :=
  (block.previous_hash == hash sha previous_block) &&
    (strTake (hash sha block) 7 == ("0000000"))

/-- Modelled from the spec: the validator the claim describes — a single
forward pass from the second block applying `claimPair` to each adjacent
pair, stopping at the first failure, valid only when every block passes. -/
def is_chain_valid_claim (sha : String → String) :
    List Block → Option Bool
  | [] => none
  | first :: rest => some (allPairs (claimPair sha) (first :: rest))

/-- Linkage property of a `blockchain.py` chain: every block after the
first has `previous_hash` equal to the hash, under the hash function of the
ledger itself, of its predecessor. -/
def linked (sha : String → String) (l : List Block) : Bool :=
  allPairs (fun a b => b.previous_hash == hash sha a) l

/-- States of the `blockchain.py` ledger reachable from a fresh object by
construction and successful mining. -/
inductive Reached (sha : String → String) : Blockchain → Prop where
  | start (ts : String) : Reached sha (init ts)
  | mine {st : Blockchain} (ts : String) (fuel : Nat) {b : Block}
      {st2 : Blockchain} :
      Reached sha st → mine_block sha st ts fuel = some (b, st2) →
      Reached sha st2

end BlockchainPy

/-- A 64-character all-zero hex digest. -/
def zeros64 : String := ⟨List.replicate 64 (Char.ofNat 48)⟩

/-- A concrete stand-in digest function under which every search succeeds
immediately: every input hashes to the all-zero digest. -/
def shaZeros : String → String := fun _ => zeros64

/-- A concrete digest function separating the two checks of the
`blockchain.py` validator: the proof-pair string "0" hashes to a digest
without the seven-zero prefix, every block serialization hashes to a
digest with it. -/
def shaC2 : String → String :=
  fun s => if s == ("0") then ("ffff") else ("0000000a")

/-- A concrete digest function under which the proof search of
`blockchain.py` succeeds at once but the own hash of the mined block misses the
seven-zero prefix. -/
def shaC7 : String → String :=
  fun s => if s == ("0") then zeros64 else ("ffff")

/-- The genesis block of a fresh `bitcoin.py` ledger under `shaZeros` with
timestamp "t". -/
def gWit : Bitcoin.Block :=
  { index := 1, timestamp := ("t"), nbits := 486604799, nonce := 1
    previous_hash := ("0"), transactions := Bitcoin.ListRef.pool
    transactions_hash := zeros64 }

/-- The block mined by `proof_of_work` under `shaZeros` right after
construction. -/
def bWit : Bitcoin.Block :=
  { index := 2, timestamp := ("t"), nbits := 486604799, nonce := 1
    previous_hash := zeros64, transactions := Bitcoin.ListRef.pool
    transactions_hash := zeros64 }

/-- The `bitcoin.py` state after one successful mine under `shaZeros`. -/
def stWit : Bitcoin.Blockchain :=
  { chain := [gWit, bWit], current_transactions := [] }

/-- The `bitcoin.py` state after submitting "a" and then mining once under
`shaZeros`. -/
def stWit5 : Bitcoin.Blockchain :=
  { chain := [gWit, bWit], current_transactions := [("a")] }

/-- The genesis block of a fresh `blockchain.py` ledger with timestamp
"t". -/
def gC2 : BlockchainPy.Block :=
  { index := 1, timestamp := ("t"), proof := 1, previous_hash := ("0") }

/-- A second `blockchain.py` block correctly linked to `gC2` under
`shaC2`. -/
def bC2 : BlockchainPy.Block :=
  { index := 2, timestamp := ("t"), proof := 1, previous_hash := ("0000000a") }

/-- The block mined from a fresh `blockchain.py` ledger under `shaC7`. -/
def bC7 : BlockchainPy.Block :=
  { index := 2, timestamp := ("t"), proof := 1, previous_hash := ("ffff") }

/-- The `blockchain.py` state after that mine. -/
def stC7 : BlockchainPy.Blockchain := { chain := [gC2, bC7] }
theorem allPairs_nil {α : Type} (p : α → α → Bool) : allPairs p ([] : List α) = true := rfl

theorem allPairs_singleton {α : Type} (p : α → α → Bool) (a : α) : allPairs p [a] = true := rfl

theorem allPairs_cons_cons {α : Type} (p : α → α → Bool) (a b : α) (l : List α) :
    allPairs p (a :: b :: l) = (p a b && allPairs p (b :: l)) := rfl

theorem allPairs_iff_chain {α : Type} (p : α → α → Bool) :
    ∀ l : List α, allPairs p l = true ↔ List.Chain' (fun a b => p a b = true) l
  | [] => by simp [allPairs_nil]
  | [a] => by simp [allPairs_singleton]
  | a :: b :: l => by
      rw [allPairs_cons_cons, Bool.and_eq_true, List.chain'_cons]
      exact and_congr Iff.rfl (allPairs_iff_chain p (b :: l))

theorem allPairs_mono {α : Type} (p q : α → α → Bool)
    (h : ∀ a b, p a b = true → q a b = true) :
    ∀ l : List α, allPairs p l = true → allPairs q l = true
  | [], _ => rfl
  | [_], _ => rfl
  | a :: b :: l, hl => by
      rw [allPairs_cons_cons, Bool.and_eq_true] at hl
      rw [allPairs_cons_cons, Bool.and_eq_true]
      exact ⟨h a b hl.1, allPairs_mono p q h (b :: l) hl.2⟩

theorem allPairs_append_last {α : Type} (p : α → α → Bool) (l : List α) (x b : α)
    (hl : allPairs p l = true) (hx : l.getLast? = some x) (hp : p x b = true) :
    allPairs p (l ++ [b]) = true := by
  rw [allPairs_iff_chain] at hl ⊢
  rw [List.chain'_append]
  refine ⟨hl, List.chain'_singleton b, ?_⟩
  intro y hy z hz
  rw [hx] at hy
  simp at hy hz
  rw [← hy, ← hz]
  exact hp

theorem bit_powLoop_spec (sha : String → String) (target : Nat) :
    ∀ (fuel : Nat) (b b2 : Bitcoin.Block),
      Bitcoin.powLoop sha target b fuel = some b2 →
      b2.timestamp = b.timestamp ∧ b2.previous_hash = b.previous_hash ∧
      b2.transactions_hash = b.transactions_hash ∧ b.nonce ≤ b2.nonce ∧
      hexToNat (Bitcoin.hash sha b2) < target ∧
      ∀ n, b.nonce ≤ n → n < b2.nonce →
        ¬ hexToNat (Bitcoin.hash sha { b2 with nonce := n }) < target
  | 0, b, b2, h => by simp [Bitcoin.powLoop] at h
  | fuel + 1, b, b2, h => by
      simp only [Bitcoin.powLoop] at h
      split at h
      case isTrue h1 =>
        cases h
        refine ⟨rfl, rfl, rfl, Nat.le_refl _, h1, ?_⟩
        intro n hn hlt
        exact absurd (Nat.lt_of_le_of_lt hn hlt) (lt_irrefl _)
      case isFalse h1 =>
        obtain ⟨ht, hph, hth, hn, hp, hmin⟩ :=
          bit_powLoop_spec sha target fuel { b with nonce := b.nonce + 1 } b2 h
        refine ⟨ht, hph, hth, Nat.le_of_succ_le hn, hp, ?_⟩
        intro n hge hlt
        rcases Nat.lt_or_ge n (b.nonce + 1) with hc | hc
        · have hnb : n = b.nonce := Nat.le_antisymm (Nat.lt_succ_iff.mp hc) hge
          have hh : Bitcoin.hash sha { b2 with nonce := n } = Bitcoin.hash sha b := by
            rw [hnb]
            simp [Bitcoin.hash, ht, hph, hth]
          rw [hh]
          exact h1
        · exact hmin n hc hlt

theorem bit_pow_elim (sha : String → String) (st : Bitcoin.Blockchain)
    (ts : String) (fuel : Nat) (b : Bitcoin.Block) (st2 : Bitcoin.Blockchain)
    (h : Bitcoin.proof_of_work sha st ts fuel = some (b, st2)) :
    ∃ prev, st.chain.getLast? = some prev ∧
      Bitcoin.powLoop sha (Bitcoin.calculate_target 486604799)
        (Bitcoin.create_block sha st ts 1 (Bitcoin.hash sha prev)) fuel =
          some b ∧
      st2 = { st with chain := st.chain ++ [b] } := by
  simp only [Bitcoin.proof_of_work, Bitcoin.get_previous_block] at h
  cases hp : st.chain.getLast? with
  | none => rw [hp] at h; exact absurd h (by simp)
  | some prev =>
    rw [hp] at h
    refine ⟨prev, rfl, ?_⟩
    simp only [] at h
    cases hq : Bitcoin.powLoop sha (Bitcoin.calculate_target 486604799)
        (Bitcoin.create_block sha st ts 1 (Bitcoin.hash sha prev)) fuel with
    | none =>
      rw [show Bitcoin.calculate_target
          (Bitcoin.create_block sha st ts 1 (Bitcoin.hash sha prev)).nbits =
          Bitcoin.calculate_target 486604799 from rfl] at h
      rw [hq] at h
      exact absurd h (by simp)
    | some b3 =>
      rw [show Bitcoin.calculate_target
          (Bitcoin.create_block sha st ts 1 (Bitcoin.hash sha prev)).nbits =
          Bitcoin.calculate_target 486604799 from rfl] at h
      rw [hq] at h
      simp only [Option.some.injEq, Prod.mk.injEq] at h
      obtain ⟨hb, hst⟩ := h
      subst hb
      exact ⟨rfl, hst.symm⟩

theorem bit_valid_two (sha : String → String) (b0 b1 : Bitcoin.Block)
    (rest : List Bitcoin.Block) :
    Bitcoin.is_chain_valid sha (b0 :: b1 :: rest) =
      if b1.previous_hash = Bitcoin.hash sha b0 then none else some false := by
  by_cases h : b1.previous_hash = Bitcoin.hash sha b0
  · simp [Bitcoin.is_chain_valid, Bitcoin.validFrom, Bitcoin.Block.getProof, h]
  · simp [Bitcoin.is_chain_valid, Bitcoin.validFrom, h]

theorem bit_reached_linked (sha : String → String) (st : Bitcoin.Blockchain)
    (h : Bitcoin.Reached sha st) : Bitcoin.linked sha st.chain = true := by
  induction h with
  | start ts => rfl
  | submit tr _ ih => exact ih
  | mine ts fuel hr hm ih =>
    obtain ⟨prev, hlast, hloop, hst2⟩ := bit_pow_elim _ _ _ _ _ _ hm
    obtain ⟨ht, hph, hth, hn, hp, hmin⟩ := bit_powLoop_spec _ _ _ _ _ hloop
    subst hst2
    unfold Bitcoin.linked at ih ⊢
    refine allPairs_append_last _ _ _ _ ih hlast ?_
    simp only [beq_iff_eq]
    rw [hph]
    rfl

theorem bpy_powLoop_spec (sha : String → String) (previous_proof : Nat) :
    ∀ (fuel s p : Nat),
      BlockchainPy.powLoop sha previous_proof s fuel = some p →
      s ≤ p ∧ BlockchainPy.proofCheck sha previous_proof p = true ∧
      ∀ n, s ≤ n → n < p → BlockchainPy.proofCheck sha previous_proof n = false
  | 0, s, p, h => by simp [BlockchainPy.powLoop] at h
  | fuel + 1, s, p, h => by
      simp only [BlockchainPy.powLoop] at h
      split at h
      case isTrue h1 =>
        cases h
        refine ⟨Nat.le_refl _, h1, ?_⟩
        intro n hn hlt
        exact absurd (Nat.lt_of_le_of_lt hn hlt) (lt_irrefl _)
      case isFalse h1 =>
        obtain ⟨hs, hc, hmin⟩ := bpy_powLoop_spec sha previous_proof fuel (s + 1) p h
        refine ⟨Nat.le_of_succ_le hs, hc, ?_⟩
        intro n hn hlt
        rcases Nat.lt_or_ge n (s + 1) with hlo | hhi
        · have hns : n = s := Nat.le_antisymm (Nat.lt_succ_iff.mp hlo) hn
          rw [hns]
          exact Bool.eq_false_iff.mpr h1
        · exact hmin n hhi hlt

theorem bpy_mine_elim (sha : String → String) (st : BlockchainPy.Blockchain)
    (ts : String) (fuel : Nat) (b : BlockchainPy.Block)
    (st2 : BlockchainPy.Blockchain)
    (h : BlockchainPy.mine_block sha st ts fuel = some (b, st2)) :
    ∃ prev p, st.chain.getLast? = some prev ∧
      BlockchainPy.proof_of_work sha prev.proof fuel = some p ∧
      b = { index := st.chain.length + 1, timestamp := ts, proof := p,
            previous_hash := BlockchainPy.hash sha prev } ∧
      st2 = { chain := st.chain ++ [b] } := by
  simp only [BlockchainPy.mine_block, BlockchainPy.get_previous_block] at h
  cases hp : st.chain.getLast? with
  | none => rw [hp] at h; exact absurd h (by simp)
  | some prev =>
    rw [hp] at h
    simp only [] at h
    cases hq : BlockchainPy.proof_of_work sha prev.proof fuel with
    | none => rw [hq] at h; exact absurd h (by simp)
    | some p =>
      rw [hq] at h
      simp only [BlockchainPy.create_blockchain, Option.some.injEq,
        Prod.mk.injEq] at h
      obtain ⟨hb, hst⟩ := h
      exact ⟨prev, p, rfl, hq, hb.symm, by rw [← hst, ← hb]⟩

theorem bpy_validFrom_eq (sha : String → String) :
    ∀ (prev : BlockchainPy.Block) (rest : List BlockchainPy.Block),
      BlockchainPy.validFrom sha prev rest =
        allPairs (BlockchainPy.validPair sha) (prev :: rest)
  | _, [] => rfl
  | prev, b :: rest => by
      rw [allPairs_cons_cons]
      rw [← bpy_validFrom_eq sha b rest]
      simp only [BlockchainPy.validFrom, BlockchainPy.validPair]
      by_cases h1 : b.previous_hash = BlockchainPy.hash sha prev
      · by_cases h2 : BlockchainPy.proofCheck sha prev.proof b.proof = true
        · simp [h1, h2]
        · simp [h1, Bool.eq_false_iff.mpr h2]
      · simp [h1]

theorem bpy_valid_eq (sha : String → String) (first : BlockchainPy.Block)
    (rest : List BlockchainPy.Block) :
    BlockchainPy.is_chain_valid sha (first :: rest) =
      some (allPairs (BlockchainPy.validPair sha) (first :: rest)) := by
  simp only [BlockchainPy.is_chain_valid]
  rw [bpy_validFrom_eq]

theorem bpy_reached_valid (sha : String → String)
    (st : BlockchainPy.Blockchain) (h : BlockchainPy.Reached sha st) :
    st.chain ≠ [] ∧ allPairs (BlockchainPy.validPair sha) st.chain = true := by
  induction h with
  | start ts =>
    exact ⟨by simp [BlockchainPy.init, BlockchainPy.create_blockchain], rfl⟩
  | mine ts fuel hr hm ih =>
    obtain ⟨prev, p, hlast, hpow, hb, hst2⟩ := bpy_mine_elim _ _ _ _ _ _ hm
    obtain ⟨hs1, hchk, hmin⟩ := bpy_powLoop_spec sha prev.proof fuel 1 p hpow
    subst hst2
    refine ⟨by simp, ?_⟩
    refine allPairs_append_last _ _ _ _ ih.2 hlast ?_
    subst hb
    simp [BlockchainPy.validPair, hchk]

set_option maxRecDepth 10000

/-- C1: Validity closure.  The claim fails on `bitcoin.py`: after any
reachable history whose chain has at least two blocks (that is, after at
least one successful mine), `is_chain_valid` raises `KeyError` on the
missing `proof` key (modelled `none`) instead of returning `True`.  On
`blockchain.py` the closure holds: every reachable chain validates to
`True`. -/
theorem c1_validity_closure :
    (∀ (sha : String → String) (st : Bitcoin.Blockchain),
       Bitcoin.Reached sha st → 2 ≤ st.chain.length →
       Bitcoin.is_chain_valid sha st.chain = none) ∧
    (∀ (sha : String → String) (st : BlockchainPy.Blockchain),
       BlockchainPy.Reached sha st →
       BlockchainPy.is_chain_valid sha st.chain = some true) := by
  constructor
  · intro sha st h hlen
    have hl := bit_reached_linked sha st h
    cases hc : st.chain with
    | nil => rw [hc] at hlen; simp at hlen
    | cons b0 tl =>
      cases hc2 : tl with
      | nil => rw [hc, hc2] at hlen; simp at hlen
      | cons b1 rest =>
        rw [hc, hc2] at hl
        unfold Bitcoin.linked at hl
        rw [allPairs_cons_cons, Bool.and_eq_true] at hl
        have hp : b1.previous_hash = Bitcoin.hash sha b0 := by
          have := hl.1
          simpa using this
        rw [bit_valid_two, if_pos hp]
  · intro sha st h
    obtain ⟨hne, hv⟩ := bpy_reached_valid sha st h
    cases hc : st.chain with
    | nil => exact absurd hc hne
    | cons first rest =>
      rw [hc] at hv
      rw [bpy_valid_eq, hv]

/-- C2 counterexample: a concrete two-block chain and digest function on
which every check the claim describes passes (the link matches and both
block hashes start with seven zeros), yet `is_chain_valid` of
`blockchain.py` returns `False`, because its second check is the
proof-pair digest, not the hash of the current block. -/
theorem c2_counterexample :
    BlockchainPy.is_chain_valid shaC2 [gC2, bC2] = some false ∧
    BlockchainPy.is_chain_valid_claim shaC2 [gC2, bC2] = some true :=
  ⟨by decide, by decide⟩

/-- C2 as amended: the validator of `blockchain.py` makes a single forward
pass and, for each block, checks the link against the recomputed hash of
the previous block and then the seven-zero prefix of the digest of
`str(current_proof ** 2 - previous_proof ** 2)` — not the hash of the
current block; it returns `True` exactly when every adjacent pair passes
both checks. -/
theorem c2_validator_amended :
    ∀ (sha : String → String) (first : BlockchainPy.Block)
      (rest : List BlockchainPy.Block),
      BlockchainPy.is_chain_valid sha (first :: rest) =
        some (allPairs (BlockchainPy.validPair sha) (first :: rest)) :=
  bpy_valid_eq

/-- C3: the claim fails on the code.  The genesis block of `bitcoin.py`
seals a reference to the live `current_transactions` list, not a copy: its
transaction sequence reads as `[]` at construction and as `[tr]` after a
later `new_transaction(tr)` call, so a later pool append retroactively
alters the sealed block. -/
theorem c3_sealed_alias : ∀ (sha : String → String) (ts tr : String),
    ((Bitcoin.init sha ts).chain.head?.map
      (fun g => Bitcoin.Block.getTransactions (Bitcoin.init sha ts) g)) =
        some [] ∧
    ((Bitcoin.init sha ts).chain.head?.map
      (fun g => Bitcoin.Block.getTransactions
        (Bitcoin.new_transaction (Bitcoin.init sha ts) tr) g)) = some [tr] := by
  intro sha ts tr
  exact ⟨rfl, rfl⟩

/-- C4 counterexample: under a concrete digest function, one successful
`proof_of_work` call on a fresh `bitcoin.py` ledger leaves the live chain
different from (longer than) the chain it was called on: the engine itself
performs the append. -/
theorem c4_counterexample :
    Bitcoin.proof_of_work shaZeros (Bitcoin.init shaZeros ("t")) ("t") 1 =
      some (bWit, stWit) ∧
    stWit.chain ≠ (Bitcoin.init shaZeros ("t")).chain :=
  ⟨by decide, by decide⟩

/-- C4 as amended: every successful `proof_of_work` call of `bitcoin.py`
leaves `current_transactions` untouched but itself appends the sealed
block to the live chain; the append is performed by the engine, not by its
caller. -/
theorem c4_engine_effects : ∀ (sha : String → String)
    (st : Bitcoin.Blockchain) (ts : String) (fuel : Nat) (b : Bitcoin.Block)
    (st2 : Bitcoin.Blockchain),
    Bitcoin.proof_of_work sha st ts fuel = some (b, st2) →
    st2.current_transactions = st.current_transactions ∧
    st2.chain = st.chain ++ [b] := by
  intro sha st ts fuel b st2 h
  obtain ⟨prev, hlast, hloop, hst2⟩ := bit_pow_elim _ _ _ _ _ _ h
  subst hst2
  exact ⟨rfl, rfl⟩

theorem c4_engine_effects_witness :
    stWit.current_transactions =
      (Bitcoin.init shaZeros ("t")).current_transactions ∧
    stWit.chain = (Bitcoin.init shaZeros ("t")).chain ++ [bWit] :=
  c4_engine_effects shaZeros (Bitcoin.init shaZeros ("t")) ("t") 1 bWit stWit
    (by decide)

/-- C5: the claim fails on the code.  `bitcoin.py` never clears
`current_transactions`: after submitting a record and mining successfully,
the pool still holds that record. -/
theorem c5_pool_not_cleared : ∀ (sha : String → String) (ts tr ts2 : String)
    (fuel : Nat) (b : Bitcoin.Block) (st2 : Bitcoin.Blockchain),
    Bitcoin.proof_of_work sha
      (Bitcoin.new_transaction (Bitcoin.init sha ts) tr) ts2 fuel =
        some (b, st2) →
    st2.current_transactions = [tr] := by
  intro sha ts tr ts2 fuel b st2 h
  obtain ⟨prev, hlast, hloop, hst2⟩ := bit_pow_elim _ _ _ _ _ _ h
  subst hst2
  rfl

theorem c5_pool_not_cleared_witness : stWit5.current_transactions = [("a")] :=
  c5_pool_not_cleared shaZeros ("t") ("a") ("t") 1 bWit stWit5 (by decide)

/-- C6: linkage.  Every state reachable in either implementation has a
chain in which each block after the first stores, in `previous_hash`, the
hash of its predecessor under the hash function of the ledger itself. -/
theorem c6_linkage :
    (∀ (sha : String → String) (st : Bitcoin.Blockchain),
       Bitcoin.Reached sha st → Bitcoin.linked sha st.chain = true) ∧
    (∀ (sha : String → String) (st : BlockchainPy.Blockchain),
       BlockchainPy.Reached sha st →
       BlockchainPy.linked sha st.chain = true) := by
  constructor
  · exact bit_reached_linked
  · intro sha st h
    have hv := (bpy_reached_valid sha st h).2
    unfold BlockchainPy.linked
    refine allPairs_mono _ _ ?_ _ hv
    intro a b hab
    unfold BlockchainPy.validPair at hab
    rw [Bool.and_eq_true] at hab
    exact hab.1

theorem c6_linkage_witness :
    Bitcoin.linked shaZeros (Bitcoin.init shaZeros ("t")).chain = true ∧
    BlockchainPy.linked shaZeros (BlockchainPy.init ("t")).chain = true :=
  ⟨c6_linkage.1 shaZeros _ (Bitcoin.Reached.start ("t")),
   c6_linkage.2 shaZeros _ (BlockchainPy.Reached.start ("t"))⟩

/-- C7 counterexample: under a concrete digest function, a successful
`mine_block` of `blockchain.py` returns a sealed block whose own canonical
hash does not meet the seven-zero target — its search hashes the
proof-pair string, not the block template, so the claim as stated is
false for this implementation. -/
theorem c7_counterexample :
    BlockchainPy.mine_block shaC7 (BlockchainPy.init ("t")) ("t") 1 =
      some (bC7, stC7) ∧
    strTake (BlockchainPy.hash shaC7 bC7) 7 ≠ ("0000000") :=
  ⟨by decide, by decide⟩

/-- C7 as amended: both searches start from 1, increment by 1 on failure,
and return the smallest satisfying candidate, deterministically.  In
`bitcoin.py` the tested predicate is the one the claim states: the canonical hash of
the template (with the candidate nonce) below the compact target.  In
`blockchain.py` the tested predicate is the seven-zero prefix of the
digest of `str(new_proof ** 2 - previous_proof ** 2)`, and only the proof
number is returned. -/
theorem c7_mining_search :
    (∀ (sha : String → String) (st : Bitcoin.Blockchain) (ts : String)
       (fuel : Nat) (b : Bitcoin.Block) (st2 : Bitcoin.Blockchain),
       Bitcoin.proof_of_work sha st ts fuel = some (b, st2) →
       1 ≤ b.nonce ∧
       hexToNat (Bitcoin.hash sha b) < Bitcoin.calculate_target 486604799 ∧
       ∀ n, 1 ≤ n → n < b.nonce →
         ¬ hexToNat (Bitcoin.hash sha { b with nonce := n }) <
             Bitcoin.calculate_target 486604799) ∧
    (∀ (sha : String → String) (previous_proof fuel p : Nat),
       BlockchainPy.proof_of_work sha previous_proof fuel = some p →
       1 ≤ p ∧ BlockchainPy.proofCheck sha previous_proof p = true ∧
       ∀ n, 1 ≤ n → n < p →
         BlockchainPy.proofCheck sha previous_proof n = false) := by
  constructor
  · intro sha st ts fuel b st2 h
    obtain ⟨prev, hlast, hloop, hst2⟩ := bit_pow_elim _ _ _ _ _ _ h
    obtain ⟨ht, hph, hth, hn, hp, hmin⟩ := bit_powLoop_spec _ _ _ _ _ hloop
    exact ⟨hn, hp, hmin⟩
  · intro sha previous_proof fuel p h
    exact bpy_powLoop_spec sha previous_proof fuel 1 p h

theorem c7_mining_search_witness :
    1 ≤ bWit.nonce ∧
    hexToNat (Bitcoin.hash shaZeros bWit) <
      Bitcoin.calculate_target 486604799 :=
  ⟨(c7_mining_search.1 shaZeros (Bitcoin.init shaZeros ("t")) ("t") 1 bWit
      stWit (by decide)).1,
   (c7_mining_search.1 shaZeros (Bitcoin.init shaZeros ("t")) ("t") 1 bWit
      stWit (by decide)).2.1⟩

/-- C8: genesis invariant.  A freshly constructed ledger of either
implementation has exactly one block, of index 1, with previous_hash "0";
in `bitcoin.py` its transaction sequence is empty. -/
theorem c8_genesis : ∀ (sha : String → String) (ts : String),
    (Bitcoin.init sha ts).chain.length = 1 ∧
    ((Bitcoin.init sha ts).chain.head?.map
      (fun g => (g.index, g.previous_hash,
        Bitcoin.Block.getTransactions (Bitcoin.init sha ts) g))) =
      some (1, ("0"), ([] : List String)) ∧
    (BlockchainPy.init ts).chain.length = 1 ∧
    ((BlockchainPy.init ts).chain.head?.map
      (fun g => (g.index, g.previous_hash))) = some (1, ("0")) := by
  intro sha ts
  exact ⟨rfl, rfl, rfl, rfl⟩

/-- C9: tamper detection.  In either implementation, replacing the
previous_hash of the block at position 1 (0-based; the first block after
genesis) by any string other than the hash of the genesis block makes the
validator return False — whatever the rest of the chain holds, since the
pass stops at that first mismatch. -/
theorem c9_tamper :
    (∀ (sha : String → String) (b0 b1 : Bitcoin.Block)
       (rest : List Bitcoin.Block) (s : String),
       s ≠ Bitcoin.hash sha b0 →
       Bitcoin.is_chain_valid sha
         (b0 :: { b1 with previous_hash := s } :: rest) = some false) ∧
    (∀ (sha : String → String) (b0 b1 : BlockchainPy.Block)
       (rest : List BlockchainPy.Block) (s : String),
       s ≠ BlockchainPy.hash sha b0 →
       BlockchainPy.is_chain_valid sha
         (b0 :: { b1 with previous_hash := s } :: rest) = some false) := by
  constructor
  · intro sha b0 b1 rest s hs
    rw [bit_valid_two]
    simp [hs]
  · intro sha b0 b1 rest s hs
    simp [BlockchainPy.is_chain_valid, BlockchainPy.validFrom, hs]

theorem c9_tamper_witness :
    (("x" : String) ≠ Bitcoin.hash shaZeros gWit ∧
      Bitcoin.is_chain_valid shaZeros
        (gWit :: { bWit with previous_hash := ("x") } :: []) = some false) ∧
    (("x" : String) ≠ BlockchainPy.hash shaZeros gC2 ∧
      BlockchainPy.is_chain_valid shaZeros
        (gC2 :: { bC2 with previous_hash := ("x") } :: []) = some false) :=
  ⟨⟨by decide, c9_tamper.1 shaZeros gWit bWit [] ("x") (by decide)⟩,
   ⟨by decide, c9_tamper.2 shaZeros gC2 bC2 [] ("x") (by decide)⟩⟩

/-- C10: a one-element chain validates to True in both implementations,
for every block whatsoever — the loop body is never entered, so none of
the fields of the single block are examined. -/
theorem c10_singleton : ∀ (sha : String → String) (b : Bitcoin.Block)
    (b2 : BlockchainPy.Block),
    Bitcoin.is_chain_valid sha [b] = some true ∧
    BlockchainPy.is_chain_valid sha [b2] = some true := by
  intro sha b b2
  exact ⟨rfl, rfl⟩

theorem c1_validity_closure_witness :
    Bitcoin.is_chain_valid shaZeros stWit.chain = none ∧
    BlockchainPy.is_chain_valid shaZeros
      (BlockchainPy.init ("t")).chain = some true :=
  ⟨c1_validity_closure.1 shaZeros stWit
      (Bitcoin.Reached.mine ("t") 1 (Bitcoin.Reached.start ("t"))
        (show Bitcoin.proof_of_work shaZeros (Bitcoin.init shaZeros ("t"))
            ("t") 1 = some (bWit, stWit) by decide))
      (by decide),
   c1_validity_closure.2 shaZeros _ (BlockchainPy.Reached.start ("t"))⟩
